import Mathlib

/-!
Verification of the standings proxy service (src/backend/server.js).

The backend is a single Express route performing a cache-aside read-through:
look up `standings:<competitionId>` in Redis, on a hit return the parsed
cached JSON, on a miss fetch from the upstream football-data API, store the
stringified response with a 900-second TTL, and return it; any thrown error
is caught and answered with status 500 and a fixed error body.

We embed the route handler as a pure function over an explicit cache state,
with the per-request environment (cache availability, upstream outcome,
API key) passed in, and the list of upstream HTTP requests made returned
alongside the response and the updated cache. JSON values, JSON.stringify
and JSON.parse are modelled concretely (numbers as integers), with the
printer/parser round trip proved.
-/

/-- JSON values as handled by the service. The service treats standings
documents as opaque JSON blobs; numbers are modelled as integers. -/
inductive Json where
  | null : Json
  | bool (b : Bool) : Json
  | num (n : Int) : Json
  | str (s : String) : Json
  | arr (elems : List Json) : Json
  | obj (fields : List (String × Json)) : Json

/-- Decimal digit character for a value below ten. -/
def digitChar (d : Nat) : Char := Char.ofNat (48 + d)

/-- Decimal digits with an accumulator and explicit fuel; the fuel is a
strict upper bound on the number so the zero-fuel case is unreachable. -/
def natToDigitsAux : Nat → Nat → List Char → List Char
  | 0, _, acc => acc
  | f + 1, n, acc =>
    if n < 10 then digitChar n :: acc
    else natToDigitsAux f (n / 10) (digitChar (n % 10) :: acc)

/-- Decimal digits of a natural number, most significant first. -/
def natToDigits (n : Nat) : List Char :=
  natToDigitsAux (n + 1) n []

/-- Decimal rendering of an integer. -/
def intToChars (n : Int) : List Char :=
  if n < 0 then '-' :: natToDigits (-n).toNat else natToDigits n.toNat

/-- JSON string escaping of a single character (model of the escaping
performed by JSON.stringify: quotes and backslashes are escaped). -/
def escapeChar (c : Char) : List Char :=
  if c = '"' then ['\\', '"']
  else if c = '\\' then ['\\', '\\']
  else [c]

/-- JSON string escaping of a character sequence. -/
def escapeString (cs : List Char) : List Char :=
  cs.flatMap escapeChar

mutual

/-- Characters of the JSON serialization of a value (model of
JSON.stringify as used at server.js line 39). -/
def stringifyChars : Json → List Char
  | .null => "null".data
  | .bool true => "true".data
  | .bool false => "false".data
  | .num n => intToChars n
  | .str s => '"' :: escapeString s.data ++ ['"']
  | .arr es => '[' :: stringifyArr es ++ [']']
  | .obj fs => '\x7b' :: stringifyObj fs ++ ['\x7d']

/-- Comma-separated serialization of array elements. -/
def stringifyArr : List Json → List Char
  | [] => []
  | [e] => stringifyChars e
  | e :: e2 :: es => stringifyChars e ++ ',' :: stringifyArr (e2 :: es)

/-- Comma-separated serialization of object fields. -/
def stringifyObj : List (String × Json) → List Char
  | [] => []
  | [(k, v)] => '"' :: escapeString k.data ++ '"' :: ':' :: stringifyChars v
  | (k, v) :: f2 :: fs =>
      '"' :: escapeString k.data ++ '"' :: ':' :: stringifyChars v
        ++ ',' :: stringifyObj (f2 :: fs)

end

/-- Model of JSON.stringify. -/
def jsonStringify (j : Json) : String := String.mk (stringifyChars j)

/-- Whether a character is a decimal digit. -/
def isDigitChar (c : Char) : Bool := 48 ≤ c.toNat && c.toNat ≤ 57

/-- Value of a digit sequence read most significant first. -/
def digitsVal (ds : List Char) : Nat :=
  ds.foldl (fun a c => a * 10 + (c.toNat - 48)) 0

/-- Parse a leading run of decimal digits; fails when none are present. -/
def parseNumber (cs : List Char) : Option (Nat × List Char) :=
  let ds := cs.takeWhile isDigitChar
  if ds.isEmpty then none
  else some (digitsVal ds, cs.dropWhile isDigitChar)

/-- Parse the body of a JSON string after its opening quote, undoing
escapes, returning the characters and the remainder after the closing
quote. -/
def parseStringBody : List Char → Option (List Char × List Char)
  | [] => none
  | c :: rest =>
    if c = '"' then some ([], rest)
    else if c = '\\' then
      match rest with
      | [] => none
      | e :: rest2 =>
        match parseStringBody rest2 with
        | some (s, r) => some (e :: s, r)
        | none => none
    else
      match parseStringBody rest with
      | some (s, r) => some (c :: s, r)
      | none => none

mutual

/-- Fuelled recursive-descent parser for one JSON value, returning the
value and the unconsumed remainder (model of JSON.parse as used at
server.js line 29). -/
def parseValue : Nat → List Char → Option (Json × List Char)
  | 0, _ => none
  | _ + 1, [] => none
  | fuel + 1, c :: rest =>
    if c = 'n' then
      match rest with
      | 'u' :: 'l' :: 'l' :: r => some (.null, r)
      | _ => none
    else if c = 't' then
      match rest with
      | 'r' :: 'u' :: 'e' :: r => some (.bool true, r)
      | _ => none
    else if c = 'f' then
      match rest with
      | 'a' :: 'l' :: 's' :: 'e' :: r => some (.bool false, r)
      | _ => none
    else if c = '"' then
      match parseStringBody rest with
      | some (s, r) => some (.str (String.mk s), r)
      | none => none
    else if c = '-' then
      match parseNumber rest with
      | some (n, r) => some (.num (-(n : Int)), r)
      | none => none
    else if isDigitChar c then
      match parseNumber (c :: rest) with
      | some (n, r) => some (.num (n : Int), r)
      | none => none
    else if c = '[' then
      if rest.head? = some ']' then some (.arr [], rest.tail)
      else
        match parseElems fuel rest with
        | some (es, r) => some (.arr es, r)
        | none => none
    else if c = '\x7b' then
      if rest.head? = some '\x7d' then some (.obj [], rest.tail)
      else
        match parseFields fuel rest with
        | some (fs, r) => some (.obj fs, r)
        | none => none
    else none

/-- Parse one or more comma-separated array elements up to the closing
bracket. -/
def parseElems : Nat → List Char → Option (List Json × List Char)
  | 0, _ => none
  | fuel + 1, cs =>
    match parseValue fuel cs with
    | none => none
    | some (e, r) =>
      match r with
      | ',' :: r2 =>
        match parseElems fuel r2 with
        | some (es, r3) => some (e :: es, r3)
        | none => none
      | ']' :: r2 => some ([e], r2)
      | _ => none

/-- Parse one or more comma-separated object fields up to the closing
brace. -/
def parseFields : Nat → List Char → Option (List (String × Json) × List Char)
  | 0, _ => none
  | fuel + 1, cs =>
    match cs with
    | '"' :: cs2 =>
      match parseStringBody cs2 with
      | some (k, r) =>
        match r with
        | ':' :: r2 =>
          match parseValue fuel r2 with
          | some (v, r3) =>
            match r3 with
            | ',' :: r4 =>
              match parseFields fuel r4 with
              | some (fs, r5) => some ((String.mk k, v) :: fs, r5)
              | none => none
            | '\x7d' :: r4 => some ([(String.mk k, v)], r4)
            | _ => none
          | none => none
        | _ => none
      | none => none
    | _ => none

end

/-- Model of JSON.parse: parse the whole string as one JSON value; any
unconsumed trailing input or parse error yields none (a thrown
SyntaxError in JavaScript). -/
def jsonParse (s : String) : Option Json :=
  match parseValue (s.data.length + 1) s.data with
  | some (j, []) => some j
  | _ => none

/-- Whether a character sequence does not begin with a decimal digit. -/
def notDigitStart : List Char → Bool
  | [] => true
  | c :: _ => !isDigitChar c

/-! Digit-printing lemmas. -/

theorem natToDigitsAux_irrel (n : Nat) :
    ∀ f1 f2 acc, n < f1 → n < f2 →
      natToDigitsAux f1 n acc = natToDigitsAux f2 n acc := by
  induction n using Nat.strong_induction_on with
  | _ n ih =>
    intro f1 f2 acc h1 h2
    match f1, f2 with
    | a + 1, b + 1 =>
      simp only [natToDigitsAux]
      by_cases hn : n < 10
      · simp [hn]
      · simp only [hn, if_false]
        exact ih (n / 10) (Nat.div_lt_self (by omega) (by omega)) a b _
          (by omega) (by omega)

theorem natToDigitsAux_acc (n : Nat) :
    ∀ f acc, n < f →
      natToDigitsAux f n acc = natToDigitsAux f n [] ++ acc := by
  induction n using Nat.strong_induction_on with
  | _ n ih =>
    intro f acc hf
    match f with
    | a + 1 =>
      simp only [natToDigitsAux]
      by_cases hn : n < 10
      · simp [hn]
      · simp only [hn, if_false]
        have hlt : n / 10 < n := Nat.div_lt_self (by omega) (by omega)
        have ha : n / 10 < a := by omega
        rw [ih (n / 10) hlt a _ ha, ih (n / 10) hlt a [digitChar (n % 10)] ha,
          List.append_assoc]
        rfl

theorem natToDigits_lt (n : Nat) (h : n < 10) : natToDigits n = [digitChar n] := by
  simp [natToDigits, natToDigitsAux, h]

theorem natToDigits_ge (n : Nat) (h : 10 ≤ n) :
    natToDigits n = natToDigits (n / 10) ++ [digitChar (n % 10)] := by
  have hlt : n / 10 < n := Nat.div_lt_self (by omega) (by omega)
  show natToDigitsAux (n + 1) n [] = _
  simp only [natToDigitsAux, Nat.not_lt.2 h, if_false]
  rw [natToDigitsAux_acc (n / 10) n [digitChar (n % 10)] (by omega),
    natToDigitsAux_irrel (n / 10) n (n / 10 + 1) [] (by omega) (by omega)]
  rfl

theorem isDigitChar_digitChar (d : Nat) (h : d < 10) :
    isDigitChar (digitChar d) = true := by
  interval_cases d <;> decide

theorem toNat_digitChar (d : Nat) (h : d < 10) :
    (digitChar d).toNat = 48 + d := by
  interval_cases d <;> decide

theorem natToDigits_digits (n : Nat) :
    ∀ c ∈ natToDigits n, isDigitChar c = true := by
  induction n using Nat.strong_induction_on with
  | _ n ih =>
    by_cases hn : n < 10
    · rw [natToDigits_lt n hn]
      intro c hc
      simp at hc
      subst hc
      exact isDigitChar_digitChar n hn
    · rw [natToDigits_ge n (by omega)]
      intro c hc
      have hdiv : n / 10 < n := Nat.div_lt_self (by omega) (by omega)
      rcases List.mem_append.1 hc with h | h
      · exact ih (n / 10) hdiv c h
      · simp at h
        subst h
        exact isDigitChar_digitChar (n % 10) (Nat.mod_lt _ (by omega))

theorem natToDigits_ne_nil (n : Nat) : natToDigits n ≠ [] := by
  by_cases hn : n < 10
  · rw [natToDigits_lt n hn]; simp
  · rw [natToDigits_ge n (by omega)]; simp

theorem natToDigits_head (n : Nat) :
    ∃ c cs, natToDigits n = c :: cs ∧ isDigitChar c = true := by
  cases hd : natToDigits n with
  | nil => exact absurd hd (natToDigits_ne_nil n)
  | cons c cs =>
    exact ⟨c, cs, rfl, natToDigits_digits n c (by rw [hd]; simp)⟩

theorem digitsVal_natToDigits (n : Nat) : digitsVal (natToDigits n) = n := by
  induction n using Nat.strong_induction_on with
  | _ n ih =>
    by_cases hn : n < 10
    · rw [natToDigits_lt n hn]
      simp [digitsVal, toNat_digitChar n hn]
    · rw [natToDigits_ge n (by omega)]
      unfold digitsVal
      rw [List.foldl_append]
      have h1 : digitsVal (natToDigits (n / 10)) = n / 10 :=
        ih (n / 10) (Nat.div_lt_self (by omega) (by omega))
      unfold digitsVal at h1
      rw [h1]
      simp [toNat_digitChar (n % 10) (Nat.mod_lt _ (by omega))]
      omega


/-! Number- and string-parsing round-trip lemmas. -/

theorem takeWhile_append_digits (l rest : List Char)
    (hl : ∀ c ∈ l, isDigitChar c = true) (hrest : notDigitStart rest = true) :
    (l ++ rest).takeWhile isDigitChar = l := by
  induction l with
  | nil =>
    cases rest with
    | nil => rfl
    | cons c cs =>
      simp only [notDigitStart, Bool.not_eq_true'] at hrest
      simp [List.takeWhile, hrest]
  | cons c cs ih =>
    have hc := hl c (by simp)
    simp only [List.cons_append, List.takeWhile, hc]
    exact congrArg (fun l => c :: l) (ih fun x hx => hl x (by simp [hx]))

theorem dropWhile_append_digits (l rest : List Char)
    (hl : ∀ c ∈ l, isDigitChar c = true) (hrest : notDigitStart rest = true) :
    (l ++ rest).dropWhile isDigitChar = rest := by
  induction l with
  | nil =>
    cases rest with
    | nil => rfl
    | cons c cs =>
      simp only [notDigitStart, Bool.not_eq_true'] at hrest
      simp [List.dropWhile, hrest]
  | cons c cs ih =>
    have hc := hl c (by simp)
    simp only [List.cons_append, List.dropWhile, hc]
    exact ih fun x hx => hl x (by simp [hx])

theorem parseNumber_natToDigits (n : Nat) (rest : List Char)
    (hrest : notDigitStart rest = true) :
    parseNumber (natToDigits n ++ rest) = some (n, rest) := by
  unfold parseNumber
  rw [takeWhile_append_digits _ _ (natToDigits_digits n) hrest,
    dropWhile_append_digits _ _ (natToDigits_digits n) hrest]
  have hne : (natToDigits n).isEmpty = false := by
    cases hd : natToDigits n with
    | nil => exact absurd hd (natToDigits_ne_nil n)
    | cons c cs => rfl
  simp [hne, digitsVal_natToDigits n]

theorem escapeString_cons (c : Char) (cs : List Char) :
    escapeString (c :: cs) = escapeChar c ++ escapeString cs := by
  simp [escapeString]

theorem parseStringBody_escape (cs : List Char) (rest : List Char) :
    parseStringBody (escapeString cs ++ '"' :: rest) = some (cs, rest) := by
  induction cs with
  | nil =>
    show parseStringBody ('"' :: rest) = some ([], rest)
    rw [parseStringBody.eq_def]
    simp
  | cons c cs ih =>
    rw [escapeString_cons, List.append_assoc]
    by_cases hq : c = '"'
    · subst hq
      rw [show escapeChar '"' = ['\\', '"'] from rfl]
      show parseStringBody ('\\' :: '"' :: (escapeString cs ++ '"' :: rest)) = _
      rw [parseStringBody.eq_def]
      simp [ih]
    · by_cases hb : c = '\\'
      · subst hb
        rw [show escapeChar '\\' = ['\\', '\\'] from rfl]
        show parseStringBody ('\\' :: '\\' :: (escapeString cs ++ '"' :: rest)) = _
        rw [parseStringBody.eq_def]
        simp [ih]
      · rw [show escapeChar c = [c] from by simp [escapeChar, hq, hb]]
        show parseStringBody (c :: (escapeString cs ++ '"' :: rest)) = _
        rw [parseStringBody.eq_def]
        simp [hq, hb, ih]

/-! Structural size of JSON values, used as parser fuel. -/

mutual

/-- Structural size of a JSON value. -/
def jsize : Json → Nat
  | .arr es => jsizeList es + 1
  | .obj fs => jsizeFields fs + 1
  | _ => 1

/-- Combined size of a list of JSON values. -/
def jsizeList : List Json → Nat
  | [] => 0
  | e :: es => jsize e + jsizeList es + 1

/-- Combined size of a list of JSON object fields. -/
def jsizeFields : List (String × Json) → Nat
  | [] => 0
  | (_, v) :: fs => jsize v + jsizeFields fs + 1

end

theorem jsize_pos (j : Json) : 1 ≤ jsize j := by
  cases j <;> simp [jsize]

theorem jsizeList_pos (es : List Json) (h : es ≠ []) : 1 ≤ jsizeList es := by
  cases es with
  | nil => exact absurd rfl h
  | cons e es => simp [jsizeList]

theorem jsizeFields_pos (fs : List (String × Json)) (h : fs ≠ []) :
    1 ≤ jsizeFields fs := by
  cases fs with
  | nil => exact absurd rfl h
  | cons f fs =>
    obtain ⟨k, v⟩ := f
    simp [jsizeFields]

/-- Every serialized JSON value begins with a character that is neither a
closing bracket nor a closing brace. -/
theorem stringifyChars_head (j : Json) :
    ∃ c cs, stringifyChars j = c :: cs ∧ c ≠ ']' ∧ c ≠ '\x7d' := by
  cases j with
  | null => exact ⟨'n', _, rfl, by decide, by decide⟩
  | bool b => cases b with
    | true => exact ⟨'t', _, rfl, by decide, by decide⟩
    | false => exact ⟨'f', _, rfl, by decide, by decide⟩
  | num n =>
    show ∃ c cs, intToChars n = c :: cs ∧ c ≠ ']' ∧ c ≠ '\x7d'
    unfold intToChars
    by_cases hn : n < 0
    · exact ⟨'-', _, by rw [if_pos hn], by decide, by decide⟩
    · obtain ⟨c, cs, hc, hd⟩ := natToDigits_head n.toNat
      refine ⟨c, cs, by rw [if_neg hn, hc], ?_, ?_⟩
      · rintro rfl; simp [isDigitChar] at hd
      · rintro rfl; simp [isDigitChar] at hd
  | str s => exact ⟨'"', _, rfl, by decide, by decide⟩
  | arr es => exact ⟨'[', _, rfl, by decide, by decide⟩
  | obj fs => exact ⟨'\x7b', _, rfl, by decide, by decide⟩

/-- A serialized JSON value is never the empty character sequence. -/
theorem stringifyChars_ne_nil (j : Json) : stringifyChars j ≠ [] := by
  obtain ⟨c, cs, hc, _, _⟩ := stringifyChars_head j
  rw [hc]
  simp

theorem string_mk_data (s : String) : String.mk s.data = s := by
  cases s
  rfl

/-- The head of a serialized nonempty array-element list is the head of
its first element's serialization. -/
theorem stringifyArr_head (e : Json) (es : List Json) :
    ∃ c X, stringifyArr (e :: es) = c :: X ∧ c ≠ ']' ∧ c ≠ '\x7d' := by
  obtain ⟨c, cs, hc, h1, h2⟩ := stringifyChars_head e
  cases es with
  | nil => exact ⟨c, cs, by rw [show stringifyArr [e] = stringifyChars e from rfl, hc], h1, h2⟩
  | cons e2 es3 =>
    refine ⟨c, cs ++ ',' :: stringifyArr (e2 :: es3), ?_, h1, h2⟩
    rw [show stringifyArr (e :: e2 :: es3)
        = stringifyChars e ++ ',' :: stringifyArr (e2 :: es3) from rfl, hc]
    rfl

/-- Round trip of the printer and the fuelled parser: parsing the
serialization of a value (followed by any remainder not starting with a
digit) succeeds and consumes exactly the serialization, for any fuel at
least the structural size. -/
theorem parse_stringify_aux (fuel : Nat) :
    (∀ j rest, jsize j ≤ fuel → notDigitStart rest = true →
      parseValue fuel (stringifyChars j ++ rest) = some (j, rest)) ∧
    (∀ es rest, es ≠ [] → jsizeList es ≤ fuel →
      parseElems fuel (stringifyArr es ++ ']' :: rest) = some (es, rest)) ∧
    (∀ fs rest, fs ≠ [] → jsizeFields fs ≤ fuel →
      parseFields fuel (stringifyObj fs ++ '\x7d' :: rest) = some (fs, rest)) := by
  induction fuel with
  | zero =>
    refine ⟨fun j rest hsz _ => ?_, fun es rest hne hsz => ?_, fun fs rest hne hsz => ?_⟩
    · exact absurd hsz (by have := jsize_pos j; omega)
    · exact absurd hsz (by have := jsizeList_pos es hne; omega)
    · exact absurd hsz (by have := jsizeFields_pos fs hne; omega)
  | succ f ih =>
    refine ⟨fun j rest hsz hrest => ?_, fun es rest hne hsz => ?_, fun fs rest hne hsz => ?_⟩
    · cases j with
      | null =>
        rw [show stringifyChars .null = ['n', 'u', 'l', 'l'] from rfl]
        simp [parseValue]
      | bool b =>
        cases b with
        | true =>
          rw [show stringifyChars (.bool true) = ['t', 'r', 'u', 'e'] from rfl]
          simp [parseValue]
        | false =>
          rw [show stringifyChars (.bool false) = ['f', 'a', 'l', 's', 'e'] from rfl]
          simp [parseValue]
      | num n =>
        rw [show stringifyChars (.num n) = intToChars n from rfl]
        unfold intToChars
        by_cases hn : n < 0
        · rw [if_pos hn, List.cons_append]
          have hnum : parseNumber (natToDigits (-n).toNat ++ rest)
              = some ((-n).toNat, rest) := parseNumber_natToDigits _ _ hrest
          rw [parseValue.eq_def]
          simp [hnum]
          omega
        · obtain ⟨c, cs, hc, hd⟩ := natToDigits_head n.toNat
          have h1 : ¬ (c = 'n') := fun h => by subst h; simp [isDigitChar] at hd
          have h2 : ¬ (c = 't') := fun h => by subst h; simp [isDigitChar] at hd
          have h3 : ¬ (c = 'f') := fun h => by subst h; simp [isDigitChar] at hd
          have h4 : ¬ (c = '"') := fun h => by subst h; simp [isDigitChar] at hd
          have h5 : ¬ (c = '-') := fun h => by subst h; simp [isDigitChar] at hd
          have hnum : parseNumber (c :: (cs ++ rest)) = some (n.toNat, rest) := by
            rw [show c :: (cs ++ rest) = (c :: cs) ++ rest from rfl, ← hc]
            exact parseNumber_natToDigits _ _ hrest
          rw [if_neg hn, hc, List.cons_append]
          rw [parseValue.eq_def]
          have he : ((n.toNat : Nat) : Int) = n := by omega
          simp [h1, h2, h3, h4, h5, hd, hnum, he]
      | str s =>
        rw [show stringifyChars (.str s) = '"' :: escapeString s.data ++ ['"'] from rfl]
        simp only [List.cons_append, List.append_assoc, List.singleton_append,
          List.nil_append]
        rw [parseValue.eq_def]
        simp [parseStringBody_escape, string_mk_data]
      | arr es =>
        cases es with
        | nil =>
          rw [show stringifyChars (.arr []) = ['[', ']'] from rfl]
          simp [parseValue, isDigitChar]
        | cons e es2 =>
          rw [show stringifyChars (.arr (e :: es2))
              = '[' :: stringifyArr (e :: es2) ++ [']'] from rfl]
          simp only [List.cons_append, List.append_assoc, List.singleton_append,
            List.nil_append]
          obtain ⟨c, X, hX, hc1, hc2⟩ := stringifyArr_head e es2
          have hsz2 : jsizeList (e :: es2) ≤ f := by
            simp [jsize] at hsz
            omega
          have helems : parseElems f (stringifyArr (e :: es2) ++ ']' :: rest)
              = some (e :: es2, rest) := ih.2.1 (e :: es2) rest (by simp) hsz2
          rw [parseValue.eq_def]
          rw [hX] at helems ⊢
          rw [List.cons_append] at helems
          simp [isDigitChar, hc1, helems]
      | obj fs =>
        cases fs with
        | nil =>
          rw [show stringifyChars (.obj []) = ['\x7b', '\x7d'] from rfl]
          simp [parseValue, isDigitChar]
        | cons f2 fs2 =>
          obtain ⟨k, v⟩ := f2
          rw [show stringifyChars (.obj ((k, v) :: fs2))
              = '\x7b' :: stringifyObj ((k, v) :: fs2) ++ ['\x7d'] from rfl]
          simp only [List.cons_append, List.append_assoc, List.singleton_append,
            List.nil_append]
          have hobj : ∃ X, stringifyObj ((k, v) :: fs2) = '"' :: X := by
            cases fs2 with
            | nil => exact ⟨_, rfl⟩
            | cons f3 fs3 => exact ⟨_, rfl⟩
          obtain ⟨X, hX⟩ := hobj
          have hsz2 : jsizeFields ((k, v) :: fs2) ≤ f := by
            simp [jsize] at hsz
            omega
          have hfields : parseFields f (stringifyObj ((k, v) :: fs2) ++ '\x7d' :: rest)
              = some ((k, v) :: fs2, rest) := ih.2.2 ((k, v) :: fs2) rest (by simp) hsz2
          rw [parseValue.eq_def]
          rw [hX] at hfields ⊢
          rw [List.cons_append] at hfields
          simp [isDigitChar, hfields]
    · cases es with
      | nil => exact absurd rfl hne
      | cons e es2 =>
        have hszi : jsize e + jsizeList es2 + 1 ≤ f + 1 := by
          simpa [jsizeList] using hsz
        cases es2 with
        | nil =>
          rw [show stringifyArr [e] = stringifyChars e from rfl]
          have hv : parseValue f (stringifyChars e ++ ']' :: rest)
              = some (e, ']' :: rest) := ih.1 e (']' :: rest) (by omega) rfl
          rw [parseElems.eq_def]
          simp [hv]
        | cons e2 es3 =>
          rw [show stringifyArr (e :: e2 :: es3)
              = stringifyChars e ++ ',' :: stringifyArr (e2 :: es3) from rfl]
          simp only [List.append_assoc, List.cons_append]
          have hv : parseValue f
                (stringifyChars e ++ ',' :: (stringifyArr (e2 :: es3) ++ ']' :: rest))
              = some (e, ',' :: (stringifyArr (e2 :: es3) ++ ']' :: rest)) :=
            ih.1 e _ (by omega) rfl
          have hsz3 : jsizeList (e2 :: es3) ≤ f := by omega
          have hrec : parseElems f (stringifyArr (e2 :: es3) ++ ']' :: rest)
              = some (e2 :: es3, rest) := ih.2.1 _ rest (by simp) hsz3
          rw [parseElems.eq_def]
          simp [hv, hrec]
    · cases fs with
      | nil => exact absurd rfl hne
      | cons f2 fs2 =>
        obtain ⟨k, v⟩ := f2
        have hszi : jsize v + jsizeFields fs2 + 1 ≤ f + 1 := by
          simpa [jsizeFields] using hsz
        cases fs2 with
        | nil =>
          rw [show stringifyObj [(k, v)]
              = '"' :: escapeString k.data ++ '"' :: ':' :: stringifyChars v from rfl]
          simp only [List.cons_append, List.append_assoc]
          have hsb : parseStringBody
                (escapeString k.data ++ '"' :: (':' :: (stringifyChars v ++ '\x7d' :: rest)))
              = some (k.data, ':' :: (stringifyChars v ++ '\x7d' :: rest)) :=
            parseStringBody_escape _ _
          have hv : parseValue f (stringifyChars v ++ '\x7d' :: rest)
              = some (v, '\x7d' :: rest) := ih.1 v ('\x7d' :: rest) (by omega) rfl
          rw [parseFields.eq_def]
          simp [hsb, hv, string_mk_data]
        | cons f3 fs3 =>
          obtain ⟨k3, v3⟩ := f3
          rw [show stringifyObj ((k, v) :: (k3, v3) :: fs3)
              = '"' :: escapeString k.data ++ '"' :: ':' :: stringifyChars v
                ++ ',' :: stringifyObj ((k3, v3) :: fs3) from rfl]
          simp only [List.cons_append, List.append_assoc]
          have hsb : parseStringBody
                (escapeString k.data ++ '"' :: (':' :: (stringifyChars v
                  ++ ',' :: (stringifyObj ((k3, v3) :: fs3) ++ '\x7d' :: rest))))
              = some (k.data, ':' :: (stringifyChars v
                  ++ ',' :: (stringifyObj ((k3, v3) :: fs3) ++ '\x7d' :: rest))) :=
            parseStringBody_escape _ _
          have hv : parseValue f (stringifyChars v
                ++ ',' :: (stringifyObj ((k3, v3) :: fs3) ++ '\x7d' :: rest))
              = some (v, ',' :: (stringifyObj ((k3, v3) :: fs3) ++ '\x7d' :: rest)) :=
            ih.1 v _ (by omega) rfl
          have hsz3 : jsizeFields ((k3, v3) :: fs3) ≤ f := by omega
          have hrec : parseFields f (stringifyObj ((k3, v3) :: fs3) ++ '\x7d' :: rest)
              = some ((k3, v3) :: fs3, rest) := ih.2.2 _ rest (by simp) hsz3
          rw [parseFields.eq_def]
          simp [hsb, hv, hrec, string_mk_data]

theorem intToChars_ne_nil (n : Int) : intToChars n ≠ [] := by
  unfold intToChars
  by_cases hn : n < 0
  · rw [if_pos hn]; simp
  · rw [if_neg hn]; exact natToDigits_ne_nil _

/-- The structural size of a value is bounded by the length of its
serialization (plus one for the list forms), so the fuel used by
jsonParse suffices. -/
theorem jsize_le_length_aux (fuel : Nat) :
    (∀ j, jsize j ≤ fuel → jsize j ≤ (stringifyChars j).length) ∧
    (∀ es, jsizeList es ≤ fuel → jsizeList es ≤ (stringifyArr es).length + 1) ∧
    (∀ fs, jsizeFields fs ≤ fuel → jsizeFields fs ≤ (stringifyObj fs).length + 1) := by
  induction fuel with
  | zero =>
    refine ⟨fun j hsz => ?_, fun es hsz => ?_, fun fs hsz => ?_⟩
    · exact absurd hsz (by have := jsize_pos j; omega)
    · cases es with
      | nil => simp [jsizeList]
      | cons e es2 => exact absurd hsz (by have := jsizeList_pos (e :: es2) (by simp); omega)
    · cases fs with
      | nil => simp [jsizeFields]
      | cons f2 fs2 =>
        exact absurd hsz (by have := jsizeFields_pos (f2 :: fs2) (by simp); omega)
  | succ f ih =>
    refine ⟨fun j hsz => ?_, fun es hsz => ?_, fun fs hsz => ?_⟩
    · cases j with
      | null => simp [jsize, stringifyChars]
      | bool b => cases b <;> simp [jsize, stringifyChars]
      | num n =>
        have h1 : intToChars n ≠ [] := intToChars_ne_nil n
        have h2 : 1 ≤ (intToChars n).length := by
          cases hC : intToChars n with
          | nil => exact absurd hC h1
          | cons c cs => simp
        calc jsize (.num n) = 1 := rfl
          _ ≤ (intToChars n).length := h2
          _ = (stringifyChars (.num n)).length := rfl
      | str s =>
        calc jsize (.str s) = 1 := rfl
          _ ≤ (escapeString s.data).length + 2 := by omega
          _ = (stringifyChars (.str s)).length := by
              rw [show stringifyChars (.str s)
                  = '"' :: escapeString s.data ++ ['"'] from rfl]
              simp
      | arr es =>
        have hszl : jsizeList es ≤ f := by
          have : jsize (.arr es) = jsizeList es + 1 := rfl
          omega
        have hb := ih.2.1 es hszl
        have hlen : (stringifyChars (.arr es)).length = (stringifyArr es).length + 2 := by
          rw [show stringifyChars (.arr es) = '[' :: stringifyArr es ++ [']'] from rfl]
          simp
        have : jsize (.arr es) = jsizeList es + 1 := rfl
        omega
      | obj fs =>
        have hszl : jsizeFields fs ≤ f := by
          have : jsize (.obj fs) = jsizeFields fs + 1 := rfl
          omega
        have hb := ih.2.2 fs hszl
        have hlen : (stringifyChars (.obj fs)).length = (stringifyObj fs).length + 2 := by
          rw [show stringifyChars (.obj fs) = '\x7b' :: stringifyObj fs ++ ['\x7d'] from rfl]
          simp
        have : jsize (.obj fs) = jsizeFields fs + 1 := rfl
        omega
    · cases es with
      | nil => simp [jsizeList]
      | cons e es2 =>
        have hsze : jsizeList (e :: es2) = jsize e + jsizeList es2 + 1 := rfl
        cases es2 with
        | nil =>
          have hb := ih.1 e (by simp [jsizeList] at hsz; omega)
          have : stringifyArr [e] = stringifyChars e := rfl
          simp [jsizeList, jsizeList.eq_def, this]
          omega
        | cons e2 es3 =>
          have hb1 := ih.1 e (by have := jsizeList_pos (e2 :: es3) (by simp); omega)
          have hb2 := ih.2.1 (e2 :: es3) (by have := jsize_pos e; omega)
          have hlen : (stringifyArr (e :: e2 :: es3)).length
              = (stringifyChars e).length + 1 + (stringifyArr (e2 :: es3)).length := by
            rw [show stringifyArr (e :: e2 :: es3)
                = stringifyChars e ++ ',' :: stringifyArr (e2 :: es3) from rfl]
            simp
            omega
          have hsze2 : jsizeList (e2 :: es3) = jsize e2 + jsizeList es3 + 1 := rfl
          omega
    · cases fs with
      | nil => simp [jsizeFields]
      | cons f2 fs2 =>
        obtain ⟨k, v⟩ := f2
        have hszf : jsizeFields ((k, v) :: fs2) = jsize v + jsizeFields fs2 + 1 := rfl
        cases fs2 with
        | nil =>
          have hb := ih.1 v (by simp [jsizeFields] at hsz; omega)
          have hlen : (stringifyObj [(k, v)]).length
              = (escapeString k.data).length + 3 + (stringifyChars v).length := by
            rw [show stringifyObj [(k, v)]
                = '"' :: escapeString k.data ++ '"' :: ':' :: stringifyChars v from rfl]
            simp
            omega
          have : jsizeFields ([] : List (String × Json)) = 0 := rfl
          omega
        | cons f3 fs3 =>
          obtain ⟨k3, v3⟩ := f3
          have hb1 := ih.1 v (by have := jsizeFields_pos ((k3, v3) :: fs3) (by simp); omega)
          have hb2 := ih.2.2 ((k3, v3) :: fs3) (by have := jsize_pos v; omega)
          have hlen : (stringifyObj ((k, v) :: (k3, v3) :: fs3)).length
              = (escapeString k.data).length + 4 + (stringifyChars v).length
                + (stringifyObj ((k3, v3) :: fs3)).length := by
            rw [show stringifyObj ((k, v) :: (k3, v3) :: fs3)
                = '"' :: escapeString k.data ++ '"' :: ':' :: stringifyChars v
                  ++ ',' :: stringifyObj ((k3, v3) :: fs3) from rfl]
            simp
            omega
          have hszf2 : jsizeFields ((k3, v3) :: fs3) = jsize v3 + jsizeFields fs3 + 1 := rfl
          omega

/-- Round trip of the modelled JSON.parse and JSON.stringify: parsing a
serialized value recovers exactly that value. -/
theorem jsonParse_jsonStringify (j : Json) : jsonParse (jsonStringify j) = some j := by
  have hb : jsize j ≤ (stringifyChars j).length :=
    (jsize_le_length_aux (jsize j)).1 j le_rfl
  have h := (parse_stringify_aux ((stringifyChars j).length + 1)).1 j []
    (by omega) rfl
  rw [List.append_nil] at h
  unfold jsonParse
  rw [show (jsonStringify j).data = stringifyChars j from rfl]
  rw [h]

/-!
The service layer: a model of the Express route handler
`app.get("/standings/:competitionId")` in src/backend/server.js.

The Redis keyspace is an association list from keys to pairs of a stored
string value and the TTL (in seconds) it was set with; `setEx`
overwrites any entry with the same key. The per-request environment
carries whether the cache read and the cache write throw (a Redis
client failure), the outcome of the axios upstream call, and the
API key from the process environment. The handler returns the HTTP
response, the cache state after the request, and the list of upstream
HTTP requests issued during the request.
-/

/-- Redis keyspace: association list of key, stored value, and the TTL
the entry was set with. -/
abbrev Cache := List (String × String × Nat)

/-- Model of redisClient.get: the stored value for a key, if present. -/
def redisGet (c : Cache) (k : String) : Option String :=
  match c.find? (fun e => e.1 == k) with
  | some e => some e.2.1
  | none => none

/-- Model of redisClient.setEx: store a value under a key with a TTL,
overwriting any existing entry for that key. -/
def redisSetEx (c : Cache) (k : String) (ttl : Nat) (v : String) : Cache :=
  (k, v, ttl) :: c.filter (fun e => e.1 != k)

/-- JavaScript truthiness of the value returned by redisClient.get
(null and the empty string are falsy), as tested by `if (cachedData)`
at server.js line 28. -/
def truthy : Option String → Bool
  | none => false
  | some s => !(s == "")

/-- The derived cache key, server.js line 23. -/
def redisKey (competitionId : String) : String :=
  "standings:" ++ competitionId

/-- The upstream provider URL with the competition identifier
interpolated, server.js line 34. -/
def upstreamUrl (competitionId : String) : String :=
  "https://api.football-data.org/v4/competitions/" ++ competitionId ++ "/standings"

/-- An outbound HTTP request to the upstream provider: the URL and the
value of the X-Auth-Token header. -/
structure UpstreamRequest where
  url : String
  authToken : String
deriving DecidableEq

/-- Outcome of the axios call: the parsed response document on a 2xx
response, or a thrown error (network failure or non-2xx status). -/
inductive FetchResult where
  | success (data : Json) : FetchResult
  | failure : FetchResult

/-- Per-request environment: whether the cache read and the cache write
throw, the outcome of the upstream call, and the configured API key. -/
structure ReqEnv where
  cacheReadFails : Bool
  cacheWriteFails : Bool
  upstream : FetchResult
  apiKey : String

/-- An HTTP response: status code and JSON body. -/
structure Response where
  status : Nat
  body : Json

/-- The generic error body sent on any caught error, server.js line 43. -/
def errorBody : Json := .obj [("error", .str "Failed to fetch standings")]

/-- The error response res.status(500).json(...), server.js line 43. -/
def errorResponse : Response := ⟨500, errorBody⟩

/-- The fetch-then-cache tail of the handler (server.js lines 33 to 41):
call the upstream provider; on a thrown error answer 500; on success
store the stringified document under the derived key with a 900-second
TTL (a throwing write is also caught as 500) and answer 200 with the
document. -/
def fetchAndCache (env : ReqEnv) (cache : Cache) (competitionId : String) :
    Response × Cache × List UpstreamRequest :=
  let req : UpstreamRequest := ⟨upstreamUrl competitionId, env.apiKey⟩
  match env.upstream with
  | .failure => (errorResponse, cache, [req])
  | .success data =>
    if env.cacheWriteFails then (errorResponse, cache, [req])
    else (⟨200, data⟩,
      redisSetEx cache (redisKey competitionId) 900 (jsonStringify data),
      [req])

/-- The route handler for GET /standings/:competitionId (server.js lines
21 to 45): read the cache (a throwing read is caught as 500); if the
value is truthy, JSON.parse it and answer 200 (a parse error is caught
as 500); otherwise fall through to the upstream fetch. -/
def getStandings (env : ReqEnv) (cache : Cache) (competitionId : String) :
    Response × Cache × List UpstreamRequest :=
  if env.cacheReadFails then (errorResponse, cache, [])
  else
    match redisGet cache (redisKey competitionId) with
    | some cachedData =>
      if cachedData = "" then fetchAndCache env cache competitionId
      else
        match jsonParse cachedData with
        | some doc => (⟨200, doc⟩, cache, [])
        | none => (errorResponse, cache, [])
    | none => fetchAndCache env cache competitionId

/-- The successful upstream response documents received during a request:
the upstream document if an upstream call was made and it succeeded. -/
def receivedDocs (env : ReqEnv) (reqs : List UpstreamRequest) : List Json :=
  match env.upstream with
  | .success d => if reqs.isEmpty then [] else [d]
  | .failure => []

/-- Cache states (together with the successful upstream responses seen so
far) reachable from the empty cache by any sequence of requests. -/
inductive Reachable : Cache → List Json → Prop
  | init : Reachable [] []
  | step (env : ReqEnv) (competitionId : String) (c : Cache) (seen : List Json) :
      Reachable c seen →
      Reachable (getStandings env c competitionId).2.1
        (receivedDocs env (getStandings env c competitionId).2.2 ++ seen)

/-- A request either leaves the cache untouched, or the upstream call
succeeded with some document and the cache update is exactly the setEx
of that document's serialization under the derived key with TTL 900. -/
theorem getStandings_cache_spec (env : ReqEnv) (cache : Cache) (competitionId : String) :
    (getStandings env cache competitionId).2.1 = cache ∨
    ∃ d, env.upstream = .success d ∧
      (getStandings env cache competitionId).2.2.isEmpty = false ∧
      (getStandings env cache competitionId).2.1
        = redisSetEx cache (redisKey competitionId) 900 (jsonStringify d) := by
  obtain ⟨r, w, up, key⟩ := env
  cases r with
  | true => left; rfl
  | false =>
    show (if false = true then _ else _ : Response × Cache × List UpstreamRequest).2.1
        = cache ∨ _
    rw [if_neg (by simp)]
    cases hget : redisGet cache (redisKey competitionId) with
    | none =>
      cases up with
      | failure => left; simp [hget, fetchAndCache]
      | success d =>
        cases w with
        | true => left; simp [hget, fetchAndCache]
        | false =>
          right
          exact ⟨d, rfl, by simp [getStandings, hget, fetchAndCache],
            by simp [getStandings, hget, fetchAndCache]⟩
    | some s =>
      by_cases hs : s = ""
      · cases up with
        | failure => left; simp [hget, hs, fetchAndCache]
        | success d =>
          cases w with
          | true => left; simp [hget, hs, fetchAndCache]
          | false =>
            right
            exact ⟨d, rfl, by simp [getStandings, hget, hs, fetchAndCache],
              by simp [getStandings, hget, hs, fetchAndCache]⟩
      · cases hp : jsonParse s with
        | some doc => left; simp [hget, hs, hp]
        | none => left; simp [hget, hs, hp]

/-- Entries of a setEx are the new entry or prior entries. -/
theorem mem_redisSetEx (c : Cache) (k v : String) (ttl : Nat)
    (e : String × String × Nat) (he : e ∈ redisSetEx c k ttl v) :
    e = (k, v, ttl) ∨ e ∈ c := by
  unfold redisSetEx at he
  rcases List.mem_cons.1 he with h | h
  · exact Or.inl h
  · exact Or.inr (List.mem_of_mem_filter h)

/-- setEx preserves distinctness of cache keys. -/
theorem redisSetEx_keys_nodup (c : Cache) (k v : String) (ttl : Nat)
    (h : (c.map (fun e => e.1)).Nodup) :
    ((redisSetEx c k ttl v).map (fun e => e.1)).Nodup := by
  unfold redisSetEx
  rw [List.map_cons, List.nodup_cons]
  constructor
  · intro hmem
    obtain ⟨e, hmem2, hkey⟩ := List.mem_map.1 hmem
    have := List.of_mem_filter hmem2
    simp at this
    exact this (hkey.symm ▸ rfl)
  · exact h.sublist (List.Sublist.map _ (List.filter_sublist c))

/-- Reading back the key just written returns the written value. -/
theorem redisGet_setEx_same (c : Cache) (k v : String) (ttl : Nat) :
    redisGet (redisSetEx c k ttl v) k = some v := by
  simp [redisGet, redisSetEx, List.find?]

theorem find_filter_ne (c : Cache) (k k2 : String) (h : k2 ≠ k) :
    (c.filter (fun e => e.1 != k)).find? (fun e => e.1 == k2)
      = c.find? (fun e => e.1 == k2) := by
  induction c with
  | nil => rfl
  | cons e c ih =>
    by_cases he : e.1 = k2
    · have hne : (e.1 != k) = true := by simp [he, h]
      have hbe : (e.1 == k2) = true := by simp [he]
      simp [List.filter_cons, hne, List.find?, hbe]
    · have hbe : (e.1 == k2) = false := by simp [he]
      by_cases hq : (e.1 != k) = true
      · simp [List.filter_cons, hq, List.find?, hbe, ih]
      · simp [List.filter_cons, hq, List.find?, hbe, ih]

/-- Writing one key leaves reads of any other key unchanged. -/
theorem redisGet_setEx_other (c : Cache) (k k2 v : String) (ttl : Nat)
    (h : k2 ≠ k) :
    redisGet (redisSetEx c k ttl v) k2 = redisGet c k2 := by
  unfold redisGet redisSetEx
  rw [List.find?]
  have : ((k, v, ttl).1 == k2) = false := by
    simp
    exact fun hh => h hh.symm
  rw [this]
  rw [find_filter_ne c k k2 h]

/-- Distinct competition identifiers derive distinct cache keys. -/
theorem redisKey_inj (a b : String) (h : a ≠ b) : redisKey a ≠ redisKey b := by
  intro hk
  apply h
  unfold redisKey at hk
  have hd := congrArg String.data hk
  simp only [String.data_append] at hd
  have hab := List.append_cancel_left hd
  cases a with
  | mk da =>
    cases b with
    | mk db => exact congrArg String.mk hab

/-- The response and the upstream requests of the fetch tail do not
depend on the cache contents. -/
theorem fetchAndCache_congr (env : ReqEnv) (c1 c2 : Cache) (competitionId : String) :
    (fetchAndCache env c1 competitionId).1 = (fetchAndCache env c2 competitionId).1 ∧
    (fetchAndCache env c1 competitionId).2.2
      = (fetchAndCache env c2 competitionId).2.2 := by
  unfold fetchAndCache
  cases hup : env.upstream with
  | failure => exact ⟨rfl, rfl⟩
  | success d =>
    by_cases hw : env.cacheWriteFails
    · simp [hw]
    · simp [hw]

/-- The response and the upstream requests of a request depend on the
cache only through the stored value at the derived key. -/
theorem getStandings_congr (env : ReqEnv) (c1 c2 : Cache) (competitionId : String)
    (h : redisGet c1 (redisKey competitionId) = redisGet c2 (redisKey competitionId)) :
    (getStandings env c1 competitionId).1 = (getStandings env c2 competitionId).1 ∧
    (getStandings env c1 competitionId).2.2
      = (getStandings env c2 competitionId).2.2 := by
  unfold getStandings
  rw [h]
  by_cases hr : env.cacheReadFails
  · simp [hr]
  · simp only [hr, Bool.false_eq_true, if_false]
    cases redisGet c2 (redisKey competitionId) with
    | none => exact fetchAndCache_congr env c1 c2 competitionId
    | some s =>
      by_cases hs : s = ""
      · simp only [hs, if_pos rfl]
        exact fetchAndCache_congr env c1 c2 competitionId
      · simp only [hs, if_neg hs]
        cases jsonParse s <;> exact ⟨rfl, rfl⟩

/-- A serialized document is never the empty string, so a cached
serialized document is always truthy. -/
theorem jsonStringify_ne_empty (j : Json) : jsonStringify j ≠ "" := by
  intro h
  have hd := congrArg String.data h
  simp only [jsonStringify] at hd
  exact stringifyChars_ne_nil j hd

/-- Hit behavior: a cached serialized document is parsed and returned
with status 200, the cache is unchanged, and no upstream request is
made. -/
theorem getStandings_hit (env : ReqEnv) (cache : Cache) (competitionId : String)
    (d : Json) (hr : env.cacheReadFails = false)
    (hc : redisGet cache (redisKey competitionId) = some (jsonStringify d)) :
    getStandings env cache competitionId = (⟨200, d⟩, cache, []) := by
  have hne : jsonStringify d ≠ "" := jsonStringify_ne_empty d
  simp [getStandings, hr, hc, hne, jsonParse_jsonStringify d]

/-- The fetch tail always issues exactly the one upstream request. -/
theorem fetchAndCache_requests (env : ReqEnv) (cache : Cache) (competitionId : String) :
    (fetchAndCache env cache competitionId).2.2
      = [⟨upstreamUrl competitionId, env.apiKey⟩] := by
  unfold fetchAndCache
  cases hup : env.upstream with
  | failure => rfl
  | success d =>
    by_cases hw : env.cacheWriteFails
    · simp [hw]
    · simp [hw]

/-- A request whose cached value is falsy (absent or empty) runs the
fetch tail. -/
theorem getStandings_not_truthy (env : ReqEnv) (cache : Cache) (competitionId : String)
    (hr : env.cacheReadFails = false)
    (ht : truthy (redisGet cache (redisKey competitionId)) = false) :
    getStandings env cache competitionId = fetchAndCache env cache competitionId := by
  cases hg : redisGet cache (redisKey competitionId) with
  | none => simp [getStandings, hr, hg]
  | some s =>
    have hs : s = "" := by
      rw [hg] at ht
      simpa [truthy] using ht
    simp [getStandings, hr, hg, hs]

/-- Miss behavior on upstream success with a working cache write. -/
theorem getStandings_miss_success (env : ReqEnv) (cache : Cache)
    (competitionId : String) (d : Json)
    (hr : env.cacheReadFails = false) (hw : env.cacheWriteFails = false)
    (ht : truthy (redisGet cache (redisKey competitionId)) = false)
    (hd : env.upstream = .success d) :
    getStandings env cache competitionId
      = (⟨200, d⟩,
         redisSetEx cache (redisKey competitionId) 900 (jsonStringify d),
         [⟨upstreamUrl competitionId, env.apiKey⟩]) := by
  rw [getStandings_not_truthy env cache competitionId hr ht]
  simp [fetchAndCache, hd, hw]

/-- Miss behavior on upstream failure: generic 500, unchanged cache, one
upstream request. -/
theorem getStandings_upstream_failure (env : ReqEnv) (cache : Cache)
    (competitionId : String)
    (hr : env.cacheReadFails = false)
    (ht : truthy (redisGet cache (redisKey competitionId)) = false)
    (hf : env.upstream = .failure) :
    getStandings env cache competitionId
      = (errorResponse, cache, [⟨upstreamUrl competitionId, env.apiKey⟩]) := by
  rw [getStandings_not_truthy env cache competitionId hr ht]
  simp [fetchAndCache, hf]

/-- A failing cache read is caught by the handler's try/catch: generic
500, no upstream request, unchanged cache. -/
theorem getStandings_read_failure (env : ReqEnv) (cache : Cache)
    (competitionId : String) (hr : env.cacheReadFails = true) :
    getStandings env cache competitionId = (errorResponse, cache, []) := by
  simp [getStandings, hr]

/-- A failing cache write after a successful upstream fetch is caught:
generic 500, unchanged cache, though the upstream call was made. -/
theorem getStandings_write_failure (env : ReqEnv) (cache : Cache)
    (competitionId : String) (d : Json)
    (hr : env.cacheReadFails = false)
    (ht : truthy (redisGet cache (redisKey competitionId)) = false)
    (hd : env.upstream = .success d) (hw : env.cacheWriteFails = true) :
    getStandings env cache competitionId
      = (errorResponse, cache, [⟨upstreamUrl competitionId, env.apiKey⟩]) := by
  rw [getStandings_not_truthy env cache competitionId hr ht]
  simp [fetchAndCache, hd, hw]

/-- A truthy cached value that does not parse as JSON is caught: generic
500, no upstream request. -/
theorem getStandings_unparseable (env : ReqEnv) (cache : Cache)
    (competitionId : String) (s : String)
    (hr : env.cacheReadFails = false)
    (hg : redisGet cache (redisKey competitionId) = some s)
    (hs : s ≠ "") (hp : jsonParse s = none) :
    getStandings env cache competitionId = (errorResponse, cache, []) := by
  simp [getStandings, hr, hg, hs, hp]

/-- A concrete standings document, the stub of spec section 8. -/
def sampleDoc : Json :=
  .obj [("competition", .obj [("id", .num 2021), ("name", .str "Premier League")]),
        ("standings", .arr [.obj [("type", .str "TOTAL"), ("table", .arr [])]])]

/-- C1: for every competition identifier, if the Cache Store holds an
entry under the key "standings:" + competitionId (a serialized
StandingsDocument), then getStandings returns exactly the deserialized
cached document with status 200, leaves the cache unchanged, and makes
zero calls to the upstream provider. -/
theorem c1_cache_hit_skips_upstream (env : ReqEnv) (cache : Cache)
    (competitionId : String) (d : Json)
    (hr : env.cacheReadFails = false)
    (hc : redisGet cache (redisKey competitionId) = some (jsonStringify d)) :
    getStandings env cache competitionId = (⟨200, d⟩, cache, []) :=
  getStandings_hit env cache competitionId d hr hc

theorem c1_cache_hit_skips_upstream_witness :
    redisGet [(redisKey "2021", jsonStringify sampleDoc, 900)] (redisKey "2021")
      = some (jsonStringify sampleDoc) ∧
    getStandings ⟨false, false, .failure, "token"⟩
        [(redisKey "2021", jsonStringify sampleDoc, 900)] "2021"
      = (⟨200, sampleDoc⟩, [(redisKey "2021", jsonStringify sampleDoc, 900)], []) :=
  ⟨rfl, c1_cache_hit_skips_upstream ⟨false, false, .failure, "token"⟩
    [(redisKey "2021", jsonStringify sampleDoc, 900)] "2021" sampleDoc rfl rfl⟩

/-- C2: on a cache miss (no entry under the key) with a working cache,
getStandings makes exactly one upstream call; on upstream success it
writes the serialized response under "standings:" + competitionId with
an expiry of 900 seconds and returns the response with status 200. -/
theorem c2_cache_miss_populates_cache (env : ReqEnv) (cache : Cache)
    (competitionId : String)
    (hr : env.cacheReadFails = false) (hw : env.cacheWriteFails = false)
    (hm : redisGet cache (redisKey competitionId) = none) :
    (getStandings env cache competitionId).2.2
      = [⟨upstreamUrl competitionId, env.apiKey⟩] ∧
    ∀ d, env.upstream = .success d →
      getStandings env cache competitionId
        = (⟨200, d⟩,
           redisSetEx cache (redisKey competitionId) 900 (jsonStringify d),
           [⟨upstreamUrl competitionId, env.apiKey⟩]) ∧
      (redisKey competitionId, jsonStringify d, 900)
        ∈ (getStandings env cache competitionId).2.1 := by
  have ht : truthy (redisGet cache (redisKey competitionId)) = false := by
    rw [hm]; rfl
  constructor
  · rw [getStandings_not_truthy env cache competitionId hr ht]
    exact fetchAndCache_requests env cache competitionId
  · intro d hd
    have hg := getStandings_miss_success env cache competitionId d hr hw ht hd
    refine ⟨hg, ?_⟩
    rw [hg]
    simp [redisSetEx]

theorem c2_cache_miss_populates_cache_witness :
    redisGet ([] : Cache) (redisKey "2021") = none ∧
    getStandings ⟨false, false, .success sampleDoc, "token"⟩ [] "2021"
      = (⟨200, sampleDoc⟩,
         redisSetEx [] (redisKey "2021") 900 (jsonStringify sampleDoc),
         [⟨upstreamUrl "2021", "token"⟩]) :=
  ⟨rfl, ((c2_cache_miss_populates_cache ⟨false, false, .success sampleDoc, "token"⟩
    [] "2021" rfl rfl rfl).2 sampleDoc rfl).1⟩

/-- C3: when the request reaches the upstream call (no truthy cached
value) and that call fails, the service answers 500 with exactly the
body containing error "Failed to fetch standings", and the cache is left
unmodified. -/
theorem c3_upstream_failure_generic_error (env : ReqEnv) (cache : Cache)
    (competitionId : String)
    (hr : env.cacheReadFails = false)
    (ht : truthy (redisGet cache (redisKey competitionId)) = false)
    (hf : env.upstream = .failure) :
    getStandings env cache competitionId
      = (errorResponse, cache, [⟨upstreamUrl competitionId, env.apiKey⟩]) ∧
    errorResponse.status = 500 ∧
    errorResponse.body = .obj [("error", .str "Failed to fetch standings")] :=
  ⟨getStandings_upstream_failure env cache competitionId hr ht hf, rfl, rfl⟩

theorem c3_upstream_failure_generic_error_witness :
    truthy (redisGet ([] : Cache) (redisKey "2021")) = false ∧
    getStandings ⟨false, false, .failure, "token"⟩ [] "2021"
      = (errorResponse, [], [⟨upstreamUrl "2021", "token"⟩]) :=
  ⟨rfl, (c3_upstream_failure_generic_error ⟨false, false, .failure, "token"⟩
    [] "2021" rfl rfl rfl).1⟩

/-- C4: round-trip fidelity. Parsing the stored serialization recovers
the document, and concretely a miss that stored document d followed by a
request for the same key is a hit returning exactly d. -/
theorem c4_roundtrip_fidelity (env env2 : ReqEnv) (cache : Cache)
    (competitionId : String) (d : Json)
    (hr : env.cacheReadFails = false) (hw : env.cacheWriteFails = false)
    (hm : redisGet cache (redisKey competitionId) = none)
    (hd : env.upstream = .success d)
    (hr2 : env2.cacheReadFails = false) :
    jsonParse (jsonStringify d) = some d ∧
    getStandings env2 (getStandings env cache competitionId).2.1 competitionId
      = (⟨200, d⟩, (getStandings env cache competitionId).2.1, []) := by
  have ht : truthy (redisGet cache (redisKey competitionId)) = false := by
    rw [hm]; rfl
  have hg := getStandings_miss_success env cache competitionId d hr hw ht hd
  have hc2 : redisGet (getStandings env cache competitionId).2.1
      (redisKey competitionId) = some (jsonStringify d) := by
    rw [hg]
    exact redisGet_setEx_same cache (redisKey competitionId) (jsonStringify d) 900
  exact ⟨jsonParse_jsonStringify d,
    getStandings_hit env2 _ competitionId d hr2 hc2⟩

theorem c4_roundtrip_fidelity_witness :
    jsonParse (jsonStringify sampleDoc) = some sampleDoc ∧
    getStandings ⟨false, false, .failure, "token"⟩
        (getStandings ⟨false, false, .success sampleDoc, "token"⟩ [] "2021").2.1 "2021"
      = (⟨200, sampleDoc⟩,
         (getStandings ⟨false, false, .success sampleDoc, "token"⟩ [] "2021").2.1, []) :=
  c4_roundtrip_fidelity ⟨false, false, .success sampleDoc, "token"⟩
    ⟨false, false, .failure, "token"⟩ [] "2021" sampleDoc rfl rfl rfl rfl rfl

/-- C5: at every reachable state the cache holds at most one entry per
key (keys are pairwise distinct), and every cached value is the verbatim
serialization of a previously received successful upstream response. -/
theorem c5_cache_invariant (c : Cache) (seen : List Json) (h : Reachable c seen) :
    ((c.map (fun e => e.1)).Nodup ∧
      ∀ e ∈ c, ∃ d, d ∈ seen ∧ e.2.1 = jsonStringify d) := by
  induction h with
  | init => simp
  | step env competitionId c seen hreach ih =>
    obtain ⟨ihn, ihv⟩ := ih
    rcases getStandings_cache_spec env c competitionId with hsame | ⟨d, hup, hne, hset⟩
    · rw [hsame]
      refine ⟨ihn, fun e he => ?_⟩
      obtain ⟨d2, hd2, hv⟩ := ihv e he
      exact ⟨d2, by simp [hd2], hv⟩
    · rw [hset]
      constructor
      · exact redisSetEx_keys_nodup c _ _ _ ihn
      · intro e he
        rcases mem_redisSetEx c _ _ _ e he with heq | hmem
        · refine ⟨d, ?_, by rw [heq]⟩
          have hrecv : receivedDocs env (getStandings env c competitionId).2.2 = [d] := by
            unfold receivedDocs
            rw [hup, hne]
            rfl
          simp [hrecv]
        · obtain ⟨d2, hd2, hv⟩ := ihv e hmem
          exact ⟨d2, by simp [hd2], hv⟩

theorem c5_cache_invariant_witness :
    ((((getStandings ⟨false, false, .success sampleDoc, "token"⟩ [] "2021").2.1).map
        (fun e => e.1)).Nodup ∧
      ∀ e ∈ (getStandings ⟨false, false, .success sampleDoc, "token"⟩ [] "2021").2.1,
        ∃ d, d ∈ receivedDocs ⟨false, false, .success sampleDoc, "token"⟩
            (getStandings ⟨false, false, .success sampleDoc, "token"⟩ [] "2021").2.2
          ++ [] ∧ e.2.1 = jsonStringify d) :=
  c5_cache_invariant _ _
    (Reachable.step ⟨false, false, .success sampleDoc, "token"⟩ "2021" [] []
      Reachable.init)

/-- C6 counterexample: with the cache read failing, an empty cache, and
an upstream stub that would succeed with sampleDoc, the service answers
500 and issues no upstream request at all — the failed cache read is not
treated as a cache miss, the upstream fetch is not attempted, and no
upstream document is returned. -/
theorem c6_cache_failure_counterexample :
    (getStandings ⟨true, false, .success sampleDoc, "token"⟩ [] "2021").1.status = 500 ∧
    (getStandings ⟨true, false, .success sampleDoc, "token"⟩ [] "2021").2.2 = [] ∧
    ¬ ((getStandings ⟨true, false, .success sampleDoc, "token"⟩ [] "2021").1.status
        = 200 ∧
      (getStandings ⟨true, false, .success sampleDoc, "token"⟩ [] "2021").2.2
        = [⟨upstreamUrl "2021", "token"⟩]) := by
  refine ⟨rfl, rfl, ?_⟩
  intro h
  exact absurd h.2 (by decide)

/-- C6 amended: a Cache Store failure fails the whole request. A failed
cache read is caught and answered 500 with no upstream call, and a
failed cache write after a successful upstream fetch is caught and
answered 500 instead of returning the upstream document; in both cases
the cache is unchanged. -/
theorem c6_cache_failure_fails_request (env : ReqEnv) (cache : Cache)
    (competitionId : String) :
    (env.cacheReadFails = true →
      getStandings env cache competitionId = (errorResponse, cache, [])) ∧
    (∀ d, env.cacheReadFails = false →
      truthy (redisGet cache (redisKey competitionId)) = false →
      env.upstream = .success d → env.cacheWriteFails = true →
      getStandings env cache competitionId
        = (errorResponse, cache, [⟨upstreamUrl competitionId, env.apiKey⟩])) :=
  ⟨fun hr => getStandings_read_failure env cache competitionId hr,
   fun d hr ht hd hw => getStandings_write_failure env cache competitionId d hr ht hd hw⟩

theorem c6_cache_failure_fails_request_witness :
    getStandings ⟨true, false, .success sampleDoc, "token"⟩ [] "2021"
      = (errorResponse, [], []) ∧
    getStandings ⟨false, true, .success sampleDoc, "token"⟩ [] "2021"
      = (errorResponse, [], [⟨upstreamUrl "2021", "token"⟩]) :=
  ⟨(c6_cache_failure_fails_request ⟨true, false, .success sampleDoc, "token"⟩
      [] "2021").1 rfl,
   (c6_cache_failure_fails_request ⟨false, true, .success sampleDoc, "token"⟩
      [] "2021").2 sampleDoc rfl rfl rfl rfl⟩

/-- C7: distinct keys are isolated. A request for one competition leaves
the cache entry of any other competition unchanged, and the response and
upstream requests of a subsequent request for the other competition are
the same as they would have been before. -/
theorem c7_distinct_keys_isolated (env env2 : ReqEnv) (cache : Cache)
    (id1 id2 : String) (h : id1 ≠ id2) :
    redisGet (getStandings env cache id1).2.1 (redisKey id2)
      = redisGet cache (redisKey id2) ∧
    (getStandings env2 (getStandings env cache id1).2.1 id2).1
      = (getStandings env2 cache id2).1 ∧
    (getStandings env2 (getStandings env cache id1).2.1 id2).2.2
      = (getStandings env2 cache id2).2.2 := by
  have hframe : redisGet (getStandings env cache id1).2.1 (redisKey id2)
      = redisGet cache (redisKey id2) := by
    rcases getStandings_cache_spec env cache id1 with hsame | ⟨d, _, _, hset⟩
    · rw [hsame]
    · rw [hset]
      exact redisGet_setEx_other cache (redisKey id1) (redisKey id2)
        (jsonStringify d) 900 (redisKey_inj id2 id1 (Ne.symm h))
  have hcongr := getStandings_congr env2 (getStandings env cache id1).2.1 cache id2 hframe
  exact ⟨hframe, hcongr.1, hcongr.2⟩

theorem c7_distinct_keys_isolated_witness :
    ("2021" : String) ≠ "2014" ∧
    redisGet (getStandings ⟨false, false, .success sampleDoc, "token"⟩ [] "2021").2.1
        (redisKey "2014")
      = redisGet ([] : Cache) (redisKey "2014") ∧
    (getStandings ⟨false, false, .failure, "token"⟩
        (getStandings ⟨false, false, .success sampleDoc, "token"⟩ [] "2021").2.1
        "2014").1
      = (getStandings ⟨false, false, .failure, "token"⟩ [] "2014").1 :=
  ⟨by decide,
   (c7_distinct_keys_isolated ⟨false, false, .success sampleDoc, "token"⟩
     ⟨false, false, .failure, "token"⟩ [] "2021" "2014" (by decide)).1,
   (c7_distinct_keys_isolated ⟨false, false, .success sampleDoc, "token"⟩
     ⟨false, false, .failure, "token"⟩ [] "2021" "2014" (by decide)).2.1⟩

/-- C8: for every caller-supplied competition identifier, with no
whitelist validation, the derived cache key is exactly
"standings:" + competitionId, and on a miss the identifier is
interpolated as-is into the provider URL with the X-Auth-Token
credential attached. -/
theorem c8_key_derivation_and_forwarding (env : ReqEnv) (cache : Cache)
    (competitionId : String)
    (hr : env.cacheReadFails = false)
    (ht : truthy (redisGet cache (redisKey competitionId)) = false) :
    redisKey competitionId = "standings:" ++ competitionId ∧
    upstreamUrl competitionId
      = "https://api.football-data.org/v4/competitions/" ++ competitionId
        ++ "/standings" ∧
    (getStandings env cache competitionId).2.2
      = [⟨"https://api.football-data.org/v4/competitions/" ++ competitionId
          ++ "/standings", env.apiKey⟩] := by
  refine ⟨rfl, rfl, ?_⟩
  rw [getStandings_not_truthy env cache competitionId hr ht]
  exact fetchAndCache_requests env cache competitionId

theorem c8_key_derivation_and_forwarding_witness :
    redisKey "DROP TABLE" = "standings:" ++ "DROP TABLE" ∧
    (getStandings ⟨false, false, .failure, "token"⟩ [] "DROP TABLE").2.2
      = [⟨"https://api.football-data.org/v4/competitions/" ++ "DROP TABLE"
          ++ "/standings", "token"⟩] :=
  ⟨(c8_key_derivation_and_forwarding ⟨false, false, .failure, "token"⟩
      [] "DROP TABLE" rfl rfl).1,
   (c8_key_derivation_and_forwarding ⟨false, false, .failure, "token"⟩
      [] "DROP TABLE" rfl rfl).2.2⟩

/-- C9: a non-empty cached value that is not parseable as JSON makes
JSON.parse throw, which the handler catches: status 500 with the generic
error body, no upstream call, cache unchanged. -/
theorem c9_unparseable_cache_value (env : ReqEnv) (cache : Cache)
    (competitionId : String) (s : String)
    (hr : env.cacheReadFails = false)
    (hg : redisGet cache (redisKey competitionId) = some s)
    (hs : s ≠ "") (hp : jsonParse s = none) :
    getStandings env cache competitionId = (errorResponse, cache, []) :=
  getStandings_unparseable env cache competitionId s hr hg hs hp

theorem c9_unparseable_cache_value_witness :
    jsonParse "not json" = none ∧
    getStandings ⟨false, false, .success sampleDoc, "token"⟩
        [(redisKey "2021", "not json", 900)] "2021"
      = (errorResponse, [(redisKey "2021", "not json", 900)], []) :=
  ⟨rfl, c9_unparseable_cache_value ⟨false, false, .success sampleDoc, "token"⟩
    [(redisKey "2021", "not json", 900)] "2021" "not json" rfl rfl
    (by decide) rfl⟩

/-- C10: a cached empty string is falsy under the truthiness test
`if (cachedData)`, so the request proceeds to the upstream fetch exactly
as a miss does rather than returning the cached value. -/
theorem c10_empty_cached_value_is_miss (env : ReqEnv) (cache : Cache)
    (competitionId : String)
    (hr : env.cacheReadFails = false)
    (hg : redisGet cache (redisKey competitionId) = some "") :
    getStandings env cache competitionId = fetchAndCache env cache competitionId ∧
    (getStandings env cache competitionId).2.2
      = [⟨upstreamUrl competitionId, env.apiKey⟩] := by
  have ht : truthy (redisGet cache (redisKey competitionId)) = false := by
    rw [hg]; rfl
  have h1 := getStandings_not_truthy env cache competitionId hr ht
  refine ⟨h1, ?_⟩
  rw [h1]
  exact fetchAndCache_requests env cache competitionId

theorem c10_empty_cached_value_is_miss_witness :
    redisGet [(redisKey "2021", "", 900)] (redisKey "2021") = some "" ∧
    getStandings ⟨false, false, .success sampleDoc, "token"⟩
        [(redisKey "2021", "", 900)] "2021"
      = fetchAndCache ⟨false, false, .success sampleDoc, "token"⟩
          [(redisKey "2021", "", 900)] "2021" :=
  ⟨rfl, (c10_empty_cached_value_is_miss ⟨false, false, .success sampleDoc, "token"⟩
    [(redisKey "2021", "", 900)] "2021" rfl rfl).1⟩
